import Mathlib

/-!
Verification of the recurrent-subnetwork execution engine of `TFNetworkRecLayer.py`
(RecLayer with a subnetwork unit, `_SubnetworkRecCell`, `ChoiceLayer`, and the
search back-resolution pass).

Each definition is a shallow embedding of the corresponding piece of the Python
source; tensors over the batch (or batch times beam) axis are modelled as
functions from example index (`Nat`) to values, time-indexed accumulators as
lists or step-indexed functions, and the graph-native `tf.while_loop` as a
structurally recursive driver whose fuel equals the exact iteration bound that
the loop condition itself enforces.
-/

namespace RecLayerModel

/-! ## Bounded iteration driver

Embedding of `RecLayer._get_output_subnet_unit`: the `cond` / `body` functions
given to `tf.while_loop` (source lines 720-803).  The per-step "end" layer
output is an oracle `endSignal : step -> example -> Bool` (its value is computed
by the subnetwork; only its use by the driver is modelled here).  The state
carries the loop counter `i`, the `end_flag` / `dyn_seq_len` pair
(`seq_len_info`, present only when the sequence length is not known in advance,
i.e. `useEndLayer = true`), and the list of step indices written to the
accumulator TensorArrays (each iteration performs exactly one
`acc_ta.write(i, ...)` per accumulator). -/

structure LoopConfig where
  maxSeqLen : Nat
  batch : Nat
  useEndLayer : Bool
  endSignal : Nat → Nat → Bool

structure LoopState where
  i : Nat
  endFlag : Nat → Bool
  dynSeqLen : Nat → Nat
  accSteps : List Nat

/-- Embedding of `cond` (source lines 780-785):
`res = tf.less(i, max_seq_len)`, and when `seq_len_info` is present,
`res = tf.logical_and(res, tf.reduce_any(tf.logical_not(end_flag)))`. -/
def loopCond (cfg : LoopConfig) (s : LoopState) : Bool :=
  decide (s.i < cfg.maxSeqLen) &&
    (!cfg.useEndLayer || (List.range cfg.batch).any (fun b => ! s.endFlag b))

/-- Embedding of `body` (source lines 720-778): when `seq_len_info` is present,
`end_flag = tf.logical_or(end_flag, end_layer_output)` and
`dyn_seq_len += tf.where(end_flag, 0, 1)`; every iteration writes to each
accumulator (`acc_ta.write(i, ...)`) and returns `i + 1`. -/
def loopBody (cfg : LoopConfig) (s : LoopState) : LoopState :=
  if cfg.useEndLayer then
    let newEnd : Nat → Bool := fun b => s.endFlag b || cfg.endSignal s.i b
    { i := s.i + 1
      endFlag := newEnd
      dynSeqLen := fun b => s.dynSeqLen b + (if newEnd b then 0 else 1)
      accSteps := s.accSteps ++ [s.i] }
  else
    { s with i := s.i + 1, accSteps := s.accSteps ++ [s.i] }

/-- Structural driver for the `tf.while_loop`: runs `body` while `cond` holds.
The fuel is exactly `maxSeqLen - i`, which the condition `i < max_seq_len`
makes an upper bound on the remaining iterations; `runLoop_unfold` below shows
that with this fuel the function satisfies the genuine while-loop equation. -/
def runLoopAux (cfg : LoopConfig) : Nat → LoopState → LoopState
  | 0, s => s
  | fuel + 1, s => if loopCond cfg s then runLoopAux cfg fuel (loopBody cfg s) else s

def runLoop (cfg : LoopConfig) (s : LoopState) : LoopState :=
  runLoopAux cfg (cfg.maxSeqLen - s.i) s

/-- Embedding of the initial loop variables (source lines 788-795):
`init_i = tf.constant(0)`, initial end flag all-`False`, initial dynamic
sequence length all-`0`, accumulators empty. -/
def initLoopState : LoopState :=
  { i := 0, endFlag := fun _ => false, dynSeqLen := fun _ => 0, accSteps := [] }

def recLoopRun (cfg : LoopConfig) : LoopState :=
  runLoop cfg initLoopState

theorem loopBody_i (cfg : LoopConfig) (s : LoopState) : (loopBody cfg s).i = s.i + 1 := by
  unfold loopBody
  split <;> rfl

theorem loopBody_accSteps (cfg : LoopConfig) (s : LoopState) :
    (loopBody cfg s).accSteps = s.accSteps ++ [s.i] := by
  unfold loopBody
  split <;> rfl

theorem loopBody_endFlag (cfg : LoopConfig) (hE : cfg.useEndLayer = true)
    (s : LoopState) (b : Nat) :
    (loopBody cfg s).endFlag b = (s.endFlag b || cfg.endSignal s.i b) := by
  simp [loopBody, hE]

theorem loopBody_dynSeqLen (cfg : LoopConfig) (hE : cfg.useEndLayer = true)
    (s : LoopState) (b : Nat) :
    (loopBody cfg s).dynSeqLen b
      = s.dynSeqLen b + (if (s.endFlag b || cfg.endSignal s.i b) then 0 else 1) := by
  simp [loopBody, hE]

theorem loopCond_lt (cfg : LoopConfig) (s : LoopState) (h : loopCond cfg s = true) :
    s.i < cfg.maxSeqLen := by
  unfold loopCond at h
  simp only [Bool.and_eq_true, decide_eq_true_eq] at h
  exact h.1

/-- With fuel `maxSeqLen - i` the structural driver satisfies the while-loop
fixpoint equation. -/
theorem runLoop_unfold (cfg : LoopConfig) (s : LoopState) :
    runLoop cfg s = if loopCond cfg s then runLoop cfg (loopBody cfg s) else s := by
  unfold runLoop
  rcases h : loopCond cfg s with hf | ht
  · have : cfg.maxSeqLen - s.i = cfg.maxSeqLen - s.i := rfl
    cases hn : cfg.maxSeqLen - s.i with
    | zero => simp [runLoopAux, hn]
    | succ n => simp [runLoopAux, hn, h]
  · have hlt : s.i < cfg.maxSeqLen := loopCond_lt cfg s h
    have hn : cfg.maxSeqLen - s.i = (cfg.maxSeqLen - (s.i + 1)) + 1 := by omega
    rw [hn]
    simp only [runLoopAux, h, if_true, loopBody_i]

/-- The driver halts in a state where the loop condition fails. -/
theorem runLoop_cond_final (cfg : LoopConfig) (s : LoopState) :
    loopCond cfg (runLoop cfg s) = false := by
  unfold runLoop
  generalize hn : cfg.maxSeqLen - s.i = n
  induction n generalizing s with
  | zero =>
    simp only [runLoopAux]
    unfold loopCond
    have : ¬ s.i < cfg.maxSeqLen := by omega
    simp [this]
  | succ n ih =>
    simp only [runLoopAux]
    rcases h : loopCond cfg s with hf | ht
    · simpa using h
    · have hlt : s.i < cfg.maxSeqLen := loopCond_lt cfg s h
      simp only [if_true]
      exact ih (loopBody cfg s) (by rw [loopBody_i]; omega)

/-- Core run lemma for the case with a statically known sequence length (no
`seq_len_info`): the loop executes one step per index from `s.i` up to
`maxSeqLen - 1`. -/
theorem runLoop_noEnd (cfg : LoopConfig) (hE : cfg.useEndLayer = false) :
    ∀ n s, cfg.maxSeqLen - s.i = n → s.i ≤ cfg.maxSeqLen →
      (runLoop cfg s).i = cfg.maxSeqLen ∧
      (runLoop cfg s).accSteps = s.accSteps ++ List.range' s.i n := by
  intro n
  induction n with
  | zero =>
    intro s hn hle
    have hi : s.i = cfg.maxSeqLen := by omega
    have hcond : loopCond cfg s = false := by
      unfold loopCond; simp [hi]
    rw [runLoop_unfold, hcond]
    exact ⟨by simpa using hi, by simp⟩
  | succ n ih =>
    intro s hn hle
    have hlt : s.i < cfg.maxSeqLen := by omega
    have hcond : loopCond cfg s = true := by
      unfold loopCond; simp [hlt, hE]
    rw [runLoop_unfold, hcond, if_pos rfl]
    have hb := ih (loopBody cfg s) (by rw [loopBody_i]; omega) (by rw [loopBody_i]; omega)
    refine ⟨hb.1, ?_⟩
    rw [hb.2]
    have hacc : (loopBody cfg s).accSteps = s.accSteps ++ [s.i] := by
      unfold loopBody; simp [hE]
    rw [hacc, loopBody_i, List.range'_succ, List.append_assoc]
    rfl

/-- States at entry of each executed `body` call (one list entry per iteration
of the `tf.while_loop`), with the same fuel discipline as `runLoop`. -/
def loopTraceAux (cfg : LoopConfig) : Nat → LoopState → List LoopState
  | 0, _ => []
  | fuel + 1, s => if loopCond cfg s then s :: loopTraceAux cfg fuel (loopBody cfg s) else []

def loopTrace (cfg : LoopConfig) (s : LoopState) : List LoopState :=
  loopTraceAux cfg (cfg.maxSeqLen - s.i) s

def loopTraceRun (cfg : LoopConfig) : List LoopState :=
  loopTrace cfg initLoopState

theorem loopTrace_unfold (cfg : LoopConfig) (s : LoopState) :
    loopTrace cfg s =
      if loopCond cfg s then s :: loopTrace cfg (loopBody cfg s) else [] := by
  unfold loopTrace
  rcases h : loopCond cfg s with hf | ht
  · cases hn : cfg.maxSeqLen - s.i with
    | zero => simp [loopTraceAux, hn]
    | succ n => simp [loopTraceAux, hn, h]
  · have hlt : s.i < cfg.maxSeqLen := loopCond_lt cfg s h
    have hn : cfg.maxSeqLen - s.i = (cfg.maxSeqLen - (s.i + 1)) + 1 := by omega
    rw [hn]
    simp only [loopTraceAux, h, if_pos rfl, loopBody_i]

/-- Every state in the trace satisfied the loop condition when its body ran. -/
theorem loopTrace_cond (cfg : LoopConfig) (s : LoopState) :
    ∀ t ∈ loopTrace cfg s, loopCond cfg t = true := by
  have hmain : ∀ n s, cfg.maxSeqLen - s.i = n →
      ∀ t ∈ loopTrace cfg s, loopCond cfg t = true := by
    intro n
    induction n with
    | zero =>
      intro s hn t ht
      rcases hc : loopCond cfg s with hf | htr
      · rw [loopTrace_unfold, hc, if_neg Bool.false_ne_true] at ht
        exact absurd ht (List.not_mem_nil t)
      · exact absurd (loopCond_lt cfg s hc) (by omega)
    | succ n ih =>
      intro s hn t ht
      rcases hc : loopCond cfg s with hf | htr
      · rw [loopTrace_unfold, hc, if_neg Bool.false_ne_true] at ht
        exact absurd ht (List.not_mem_nil t)
      · rw [loopTrace_unfold, hc, if_pos rfl] at ht
        rcases List.mem_cons.mp ht with h1 | h2
        · rw [h1]; exact hc
        · have hlt : s.i < cfg.maxSeqLen := loopCond_lt cfg s hc
          exact ih (loopBody cfg s) (by rw [loopBody_i]; omega) t h2
  exact hmain _ s rfl

/-- The final state of the driver is the fold of the body over the trace. -/
theorem runLoop_eq_foldl (cfg : LoopConfig) (s : LoopState) :
    runLoop cfg s = (loopTrace cfg s).foldl (fun st _ => loopBody cfg st) s := by
  have hmain : ∀ n s, cfg.maxSeqLen - s.i = n →
      runLoop cfg s = (loopTrace cfg s).foldl (fun st _ => loopBody cfg st) s := by
    intro n
    induction n with
    | zero =>
      intro s hn
      rcases h : loopCond cfg s with hf | ht
      · rw [runLoop_unfold, loopTrace_unfold, h]; simp
      · exact absurd (loopCond_lt cfg s h) (by omega)
    | succ n ih =>
      intro s hn
      rcases h : loopCond cfg s with hf | ht
      · rw [runLoop_unfold, loopTrace_unfold, h]; simp
      · rw [runLoop_unfold, loopTrace_unfold, h, if_pos rfl, if_pos rfl, List.foldl_cons]
        have hlt : s.i < cfg.maxSeqLen := loopCond_lt cfg s h
        exact ih (loopBody cfg s) (by rw [loopBody_i]; omega)
  exact hmain _ s rfl

/-! ## Closed forms for the dynamic sequence-length bookkeeping (C3) -/

/-- Closed form of the accumulated `end_flag` after `i` executed steps:
the OR over the end-layer outputs of steps `0 .. i-1`. -/
def endFlagSpec (cfg : LoopConfig) (i b : Nat) : Bool :=
  (List.range i).any (fun j => cfg.endSignal j b)

/-- Closed form of `dyn_seq_len` after `i` executed steps: the number of steps
whose updated end flag (including that step's own signal) was still false. -/
def dynLenSpec (cfg : LoopConfig) (i b : Nat) : Nat :=
  ((List.range i).filter (fun j => ! endFlagSpec cfg (j + 1) b)).length

theorem endFlagSpec_succ (cfg : LoopConfig) (i b : Nat) :
    endFlagSpec cfg (i + 1) b = (endFlagSpec cfg i b || cfg.endSignal i b) := by
  unfold endFlagSpec
  rw [List.range_succ, List.any_append]
  simp

theorem dynLenSpec_succ (cfg : LoopConfig) (i b : Nat) :
    dynLenSpec cfg (i + 1) b
      = dynLenSpec cfg i b + (if endFlagSpec cfg (i + 1) b then 0 else 1) := by
  unfold dynLenSpec
  rw [List.range_succ, List.filter_append, List.length_append]
  rcases h : endFlagSpec cfg (i + 1) b with hf | ht <;> simp [h]

/-- Invariant run lemma for the dynamic-length case: if the incoming state's
end flags and dynamic lengths agree with the closed forms at index `s.i`, the
final state agrees with the closed forms at the final index, and one
accumulator write happened per executed step. -/
theorem runLoop_end_inv (cfg : LoopConfig) (hE : cfg.useEndLayer = true) :
    ∀ n s, cfg.maxSeqLen - s.i = n →
      (∀ b, s.endFlag b = endFlagSpec cfg s.i b) →
      (∀ b, s.dynSeqLen b = dynLenSpec cfg s.i b) →
      s.i ≤ (runLoop cfg s).i ∧
      (runLoop cfg s).accSteps = s.accSteps ++ List.range' s.i ((runLoop cfg s).i - s.i) ∧
      (∀ b, (runLoop cfg s).endFlag b = endFlagSpec cfg (runLoop cfg s).i b) ∧
      (∀ b, (runLoop cfg s).dynSeqLen b = dynLenSpec cfg (runLoop cfg s).i b) := by
  intro n
  induction n with
  | zero =>
    intro s hn hflag hlen
    have hcond : loopCond cfg s = false := by
      unfold loopCond
      have : ¬ s.i < cfg.maxSeqLen := by omega
      simp [this]
    rw [runLoop_unfold, hcond, if_neg Bool.false_ne_true]
    exact ⟨le_refl _, by simp, hflag, hlen⟩
  | succ n ih =>
    intro s hn hflag hlen
    rcases h : loopCond cfg s with hf | ht
    · rw [runLoop_unfold, h, if_neg Bool.false_ne_true]
      exact ⟨le_refl _, by simp, hflag, hlen⟩
    · rw [runLoop_unfold, h, if_pos rfl]
      have hlt : s.i < cfg.maxSeqLen := loopCond_lt cfg s h
      have hflagstep : ∀ b, (s.endFlag b || cfg.endSignal s.i b) = endFlagSpec cfg (s.i + 1) b := by
        intro b
        rw [hflag b, ← endFlagSpec_succ]
      have hbodyflag : ∀ b, (loopBody cfg s).endFlag b = endFlagSpec cfg (s.i + 1) b := by
        intro b
        rw [loopBody_endFlag cfg hE, hflagstep b]
      have hbodylen : ∀ b, (loopBody cfg s).dynSeqLen b = dynLenSpec cfg (s.i + 1) b := by
        intro b
        rw [loopBody_dynSeqLen cfg hE, hlen b, dynLenSpec_succ, hflagstep b]
      have hbodyacc : (loopBody cfg s).accSteps = s.accSteps ++ [s.i] :=
        loopBody_accSteps cfg s
      have hb := ih (loopBody cfg s) (by rw [loopBody_i]; omega)
        (by rw [loopBody_i]; exact hbodyflag) (by rw [loopBody_i]; exact hbodylen)
      obtain ⟨hb1, hb2, hb3, hb4⟩ := hb
      rw [loopBody_i] at hb1
      refine ⟨by omega, ?_, hb3, hb4⟩
      rw [hb2, hbodyacc, loopBody_i, List.append_assoc]
      congr 1
      have hfinal : (runLoop cfg (loopBody cfg s)).i - s.i
          = ((runLoop cfg (loopBody cfg s)).i - (s.i + 1)) + 1 := by omega
      rw [hfinal, List.range'_succ]
      rfl

theorem endFlagSpec_firstFire (cfg : LoopConfig) (b e : Nat)
    (hfire : cfg.endSignal e b = true) (hmin : ∀ j < e, cfg.endSignal j b = false) :
    ∀ i, endFlagSpec cfg i b = decide (e < i) := by
  intro i
  induction i with
  | zero => simp [endFlagSpec]
  | succ i ih =>
    rw [endFlagSpec_succ, ih]
    rcases Nat.lt_trichotomy i e with h | h | h
    · have h1 : ¬ e < i := by omega
      have h2 : ¬ e < i + 1 := by omega
      simp [hmin i h, h1, h2]
    · subst h
      have h2 : i < i + 1 := by omega
      simp [hfire, h2]
    · have h2 : e < i + 1 := by omega
      simp [h, h2]

theorem dynLenSpec_firstFire (cfg : LoopConfig) (b e : Nat)
    (hfire : cfg.endSignal e b = true) (hmin : ∀ j < e, cfg.endSignal j b = false) :
    ∀ i, dynLenSpec cfg i b = min i e := by
  intro i
  induction i with
  | zero => simp [dynLenSpec]
  | succ i ih =>
    rw [dynLenSpec_succ, ih, endFlagSpec_firstFire cfg b e hfire hmin]
    rcases Nat.lt_or_ge e (i + 1) with h | h
    · simp [h]
      omega
    · have : ¬ e < i + 1 := by omega
      simp [this]
      omega

/-- With a single example whose end signal first fires at step `e < maxSeqLen`,
the loop counter never passes `e + 1`. -/
theorem runLoop_stop_batch1 (cfg : LoopConfig) (hE : cfg.useEndLayer = true)
    (hb : cfg.batch = 1) (e : Nat)
    (hfire : cfg.endSignal e 0 = true) (hmin : ∀ j < e, cfg.endSignal j 0 = false) :
    ∀ n s, cfg.maxSeqLen - s.i = n →
      (∀ b, s.endFlag b = endFlagSpec cfg s.i b) →
      s.i ≤ e + 1 → (runLoop cfg s).i ≤ e + 1 := by
  intro n
  induction n with
  | zero =>
    intro s hn hflag hle
    rcases h : loopCond cfg s with hf | ht
    · rw [runLoop_unfold, h, if_neg Bool.false_ne_true]
      exact hle
    · exact absurd (loopCond_lt cfg s h) (by omega)
  | succ n ih =>
    intro s hn hflag hle
    rcases h : loopCond cfg s with hf | ht
    · rw [runLoop_unfold, h, if_neg Bool.false_ne_true]
      exact hle
    · rw [runLoop_unfold, h, if_pos rfl]
      have hlt : s.i < cfg.maxSeqLen := loopCond_lt cfg s h
      -- the condition being true means example 0 has not ended yet
      have hnotend : s.endFlag 0 = false := by
        unfold loopCond at h
        rw [hE, hb] at h
        simp only [Bool.and_eq_true, Bool.or_eq_true, List.any_eq_true] at h
        rcases h.2 with h2 | h2
        · simp at h2
        · obtain ⟨b, hbmem, hbflag⟩ := h2
          rw [List.mem_range] at hbmem
          have hbz : b = 0 := by omega
          subst hbz
          simpa using hbflag
      have hsi : ¬ e < s.i := by
        intro hcon
        rw [hflag 0, endFlagSpec_firstFire cfg 0 e hfire hmin] at hnotend
        simp [hcon] at hnotend
      exact ih (loopBody cfg s) (by rw [loopBody_i]; omega)
        (by
          intro b
          rw [loopBody_endFlag cfg hE, loopBody_i, hflag b, endFlagSpec_succ])
        (by rw [loopBody_i]; omega)

def initFlagSpec (cfg : LoopConfig) :
    (∀ b, initLoopState.endFlag b = endFlagSpec cfg initLoopState.i b) ∧
    (∀ b, initLoopState.dynSeqLen b = dynLenSpec cfg initLoopState.i b) :=
  ⟨fun _ => by simp [initLoopState, endFlagSpec],
   fun _ => by simp [initLoopState, dynLenSpec]⟩

/-- C3: with a dynamic end signal, the iteration at which the end signal first
fires (step `e`, 0-based) still executes and is recorded, but the recorded
per-example length is `e`: one less than the number of iterations executed for
that example.  With batch size 1 the loop runs exactly `e + 1` iterations and
records length `e`. -/
theorem dynamicLength_offByOne (cfg : LoopConfig) (hE : cfg.useEndLayer = true)
    (b e : Nat) (hb : b < cfg.batch)
    (hfire : cfg.endSignal e b = true) (hmin : ∀ j < e, cfg.endSignal j b = false) :
    (e < (recLoopRun cfg).i → (recLoopRun cfg).dynSeqLen b = e) ∧
    (cfg.batch = 1 → e < cfg.maxSeqLen →
      (recLoopRun cfg).i = e + 1 ∧
      (recLoopRun cfg).accSteps.length = e + 1 ∧
      (recLoopRun cfg).dynSeqLen b = e) := by
  obtain ⟨hinitflag, hinitlen⟩ := initFlagSpec cfg
  have hinv := runLoop_end_inv cfg hE (cfg.maxSeqLen - initLoopState.i) initLoopState rfl
    hinitflag hinitlen
  obtain ⟨hmono, hacc, hflag, hlen⟩ := hinv
  constructor
  · intro hlt
    have := hlen b
    rw [dynLenSpec_firstFire cfg b e hfire hmin] at this
    unfold recLoopRun at hlt ⊢
    rw [this]
    omega
  · intro hb1 hemax
    have hbz : b = 0 := by omega
    subst hbz
    -- upper bound on the final loop counter
    have hub := runLoop_stop_batch1 cfg hE hb1 e hfire hmin
      (cfg.maxSeqLen - initLoopState.i) initLoopState rfl hinitflag
      (by simp [initLoopState])
    -- lower bound from the negated loop condition at the final state
    have hcondf := runLoop_cond_final cfg initLoopState
    unfold loopCond at hcondf
    rw [hE, hb1] at hcondf
    simp only [Bool.and_eq_false_iff] at hcondf
    have hfi : e + 1 ≤ (runLoop cfg initLoopState).i := by
      rcases hcondf with h1 | h1
      · simp only [decide_eq_false_iff_not] at h1
        omega
      · simp only [Bool.or_eq_false_iff] at h1
        rcases h1 with ⟨_, h2⟩
        have h3 : (runLoop cfg initLoopState).endFlag 0 = true := by
          rcases h4 : (runLoop cfg initLoopState).endFlag 0 with hf2 | ht2
          · exfalso
            have : (List.range 1).any (fun b => ! (runLoop cfg initLoopState).endFlag b) = true := by
              simp [h4]
            rw [h2] at this
            simp at this
          · rfl
        rw [hflag 0, endFlagSpec_firstFire cfg 0 e hfire hmin] at h3
        simp at h3
        omega
    have hieq : (runLoop cfg initLoopState).i = e + 1 := by
      unfold recLoopRun at *
      omega
    unfold recLoopRun
    refine ⟨hieq, ?_, ?_⟩
    · rw [hacc, hieq]
      simp [initLoopState]
    · rw [hlen 0, dynLenSpec_firstFire cfg 0 e hfire hmin, hieq]
      omega

def c3cfg : LoopConfig :=
  { maxSeqLen := 5, batch := 1, useEndLayer := true,
    endSignal := fun j _ => decide (j = 2) }

theorem dynamicLength_offByOne_witness :
    (recLoopRun c3cfg).i = 3 ∧
    (recLoopRun c3cfg).accSteps.length = 3 ∧
    (recLoopRun c3cfg).dynSeqLen 0 = 2 := by
  have h := (dynamicLength_offByOne c3cfg rfl 0 2 (by decide) (by decide)
    (by intro j hj; interval_cases j <;> decide)).2 rfl (by decide)
  exact h

/-- C4: with a statically known maximum length `L` and no dynamic end signal,
the loop executes exactly `L` iterations, one per step index `0 .. L-1`, each
appending one entry to every accumulator, so the accumulated buffers have
length exactly `L`. -/
theorem knownLength_exactSteps (cfg : LoopConfig) (hE : cfg.useEndLayer = false) :
    (recLoopRun cfg).accSteps = List.range cfg.maxSeqLen ∧
    (recLoopRun cfg).accSteps.length = cfg.maxSeqLen ∧
    (recLoopRun cfg).i = cfg.maxSeqLen := by
  have h := runLoop_noEnd cfg hE (cfg.maxSeqLen - initLoopState.i) initLoopState rfl
    (by simp [initLoopState])
  unfold recLoopRun
  have hsteps : (runLoop cfg initLoopState).accSteps = List.range cfg.maxSeqLen := by
    rw [h.2]
    simp [initLoopState, List.range_eq_range']
  exact ⟨hsteps, by rw [hsteps, List.length_range], h.1⟩

def c4cfg : LoopConfig :=
  { maxSeqLen := 4, batch := 2, useEndLayer := false, endSignal := fun _ _ => false }

theorem knownLength_exactSteps_witness :
    (recLoopRun c4cfg).accSteps = List.range 4 ∧
    (recLoopRun c4cfg).accSteps.length = 4 ∧
    (recLoopRun c4cfg).i = 4 :=
  knownLength_exactSteps c4cfg rfl

/-- C5: the iteration driver executes a step body only in states where the
loop guard holds — the step index is below the maximum length and, when a
dynamic end signal is configured, at least one example has not yet signaled
end — and it halts exactly when the guard fails. -/
theorem loopGuard_exact (cfg : LoopConfig) :
    ((loopTraceRun cfg).all (fun t =>
        decide (t.i < cfg.maxSeqLen) &&
          (!cfg.useEndLayer || (List.range cfg.batch).any (fun b => ! t.endFlag b)))) = true ∧
    loopCond cfg (recLoopRun cfg) = false ∧
    recLoopRun cfg = (loopTraceRun cfg).foldl (fun st _ => loopBody cfg st) initLoopState := by
  refine ⟨?_, runLoop_cond_final cfg initLoopState, runLoop_eq_foldl cfg initLoopState⟩
  rw [List.all_eq_true]
  intro t ht
  exact loopTrace_cond cfg initLoopState t ht

/-! ## Required "end" layer when the sequence length is unknown (C9)

Embedding of the checks in `RecLayer._get_output_subnet_unit`: the sequence
length is known when input data supplies it or `output.size_placeholder` is set
(source lines 523-552); otherwise `max_seq_len` must be configured (line 550)
and — lines 701-707 — the subnetwork must declare an `"end"` layer whose
template output has dtype bool, batch shape `(None,)` and is sparse. -/

structure EndTemplateData where
  dtypeIsBool : Bool
  batchShape : List (Option Nat)
  sparse : Bool
deriving DecidableEq

structure SubnetSetup where
  hasInputData : Bool
  hasSizePlaceholder : Bool
  maxSeqLenOpt : Option Nat
  endTemplate : Option EndTemplateData

/-- Embedding of `have_known_seq_len` (source lines 544-552): the length is
known exactly when a `seq_len` was available, i.e. from the input data or from
`output.size_placeholder`. -/
def haveKnownSeqLen (s : SubnetSetup) : Bool :=
  s.hasInputData || s.hasSizePlaceholder

/-- Embedding of the assertion chain guarding an unknown sequence length:
`assert self._max_seq_len` (line 550, Python truthiness: `None` and `0` fail),
then `assert "end" in cell.layer_data_templates`, `assert dtype is bool`,
`assert batch_shape == (None,)`, `assert sparse` (lines 701-707).  An
`Except.error` models the raised `AssertionError`; nothing is produced then. -/
def subnetLengthChecks (s : SubnetSetup) : Except String Unit :=
  if haveKnownSeqLen s then .ok ()
  else if s.maxSeqLenOpt.getD 0 = 0 then .error "must specify max_seq_len in rec layer"
  else match s.endTemplate with
    | none => .error "You need to have an end layer in your rec subnet if the generated seq len is unknown."
    | some t =>
      if t.dtypeIsBool = false then .error "end layer dtype is not bool"
      else if t.batchShape ≠ [none] then .error "end layer batch shape is not (batch,)"
      else if t.sparse = false then .error "end layer is not sparse"
      else .ok ()

/-- C9: when the sequence length is not known in advance (no input sequence
lengths and no externally provided output sizes), construction fails with a
fatal error unless the subnetwork declares an "end" layer whose template
output is a boolean, sparse, batch-shaped value; with such an "end" layer
absent or malformed, no result is produced (and with a well-formed "end"
layer and a configured max length, these checks pass). -/
theorem endLayer_required (s : SubnetSetup)
    (hIn : s.hasInputData = false) (hSz : s.hasSizePlaceholder = false) :
    ((s.endTemplate = none ∨
        ∃ t, s.endTemplate = some t ∧
          ¬(t.dtypeIsBool = true ∧ t.batchShape = [none] ∧ t.sparse = true)) →
      ∃ msg, subnetLengthChecks s = .error msg) ∧
    (∀ t, s.endTemplate = some t →
      t.dtypeIsBool = true → t.batchShape = [none] → t.sparse = true →
      s.maxSeqLenOpt.getD 0 ≠ 0 → subnetLengthChecks s = .ok ()) := by
  have hkn : haveKnownSeqLen s = false := by
    unfold haveKnownSeqLen
    rw [hIn, hSz]
    rfl
  constructor
  · intro hbad
    unfold subnetLengthChecks
    rw [hkn, if_neg Bool.false_ne_true]
    by_cases hm : s.maxSeqLenOpt.getD 0 = 0
    · exact ⟨_, by rw [if_pos hm]⟩
    · rw [if_neg hm]
      rcases hbad with hnone | ⟨t, ht, hbadt⟩
      · rw [hnone]
        exact ⟨_, rfl⟩
      · rw [ht]
        simp only
        by_cases h1 : t.dtypeIsBool = false
        · exact ⟨_, by rw [if_pos h1]⟩
        · rw [if_neg h1]
          by_cases h2 : t.batchShape ≠ [none]
          · exact ⟨_, by rw [if_pos h2]⟩
          · rw [if_neg h2]
            by_cases h3 : t.sparse = false
            · exact ⟨_, by rw [if_pos h3]⟩
            · exfalso
              exact hbadt ⟨by revert h1; cases t.dtypeIsBool <;> simp,
                by revert h2; simp,
                by revert h3; cases t.sparse <;> simp⟩
  · intro t ht h1 h2 h3 hm
    unfold subnetLengthChecks
    rw [hkn, if_neg Bool.false_ne_true, if_neg hm, ht]
    simp [h1, h2, h3]

def c9setup : SubnetSetup :=
  { hasInputData := false, hasSizePlaceholder := false,
    maxSeqLenOpt := some 10, endTemplate := none }

theorem endLayer_required_witness :
    ∃ msg, subnetLengthChecks c9setup = .error msg :=
  (endLayer_required c9setup rfl rfl).1 (Or.inl rfl)

/-! ## Accumulated subnetwork loss and error (C7)

Embedding of the `sub_net_loss` block (source lines 814-835): per loss-carrying
layer (iterated in sorted name order) the stacked per-frame loss and error
values of shape `(time, batch)` are masked with `sequence_mask_time_major(seq_len)`
and summed; `self._sub_loss` accumulates `loss_value * layer.loss_scale`, while
`self._sub_error = error_value` overwrites (source comment: "Only one error,
not summed up. Determined by sorted layers."), and
`self._sub_loss_normalization_factor = 1 / sum(seq_len)`. -/

structure LossSetup where
  batch : Nat
  maxTime : Nat
  seqLen : Nat → Nat
  lossLayerNames : List String
  lossVal : String → Nat → Nat → ℚ
  errVal : String → Nat → Nat → ℚ
  lossScale : String → ℚ

/-- Length-masked sum over the stacked `(time, batch)` values:
`tf.reduce_sum(tf.where(sequence_mask_time_major(seq_len), v, 0))`. -/
def maskedSum (st : LossSetup) (v : Nat → Nat → ℚ) : ℚ :=
  ((List.range st.maxTime).map (fun t =>
    ((List.range st.batch).map (fun b => if t < st.seqLen b then v t b else 0)).sum)).sum

/-- Normalization factor `1.0 / tf.cast(tf.reduce_sum(seq_len), tf.float32)`. -/
def lossNormFactor (st : LossSetup) : ℚ :=
  1 / ((List.range st.batch).map (fun b => (st.seqLen b : ℚ))).sum

structure SubLossAcc where
  subLoss : ℚ
  subError : Option ℚ
  subNormFactor : Option ℚ
deriving DecidableEq

/-- One iteration of `for layer_name in sorted(layer_names_with_losses)`. -/
def subLossStep (st : LossSetup) (acc : SubLossAcc) (name : String) : SubLossAcc :=
  { subLoss := acc.subLoss + maskedSum st (st.lossVal name) * st.lossScale name
    subError := some (maskedSum st (st.errVal name))
    subNormFactor := some (lossNormFactor st) }

/-- Fold of `subLossStep` over the loss-carrying layer names in sorted order,
starting from the `None`/zero initialization. -/
def subLossFold (st : LossSetup) : SubLossAcc :=
  (List.insertionSort (fun a b => a ≤ b) st.lossLayerNames).foldl
    (subLossStep st) { subLoss := 0, subError := none, subNormFactor := none }

/-- Embedding of the whole `if layer_names_with_losses:` block; when no layer
carries a loss the attributes keep their `None` initialization from
`RecLayer.__init__`. -/
def subnetLossResult (st : LossSetup) : Option ℚ × Option ℚ × Option ℚ :=
  if st.lossLayerNames.isEmpty then (none, none, none)
  else (some (subLossFold st).subLoss, (subLossFold st).subError,
    (subLossFold st).subNormFactor)

/-- Spec-worded error aggregation of claim C7: the error contributions masked
and summed over time, batch, and ALL loss-carrying layers. -/
def specSubnetError (st : LossSetup) : ℚ :=
  (st.lossLayerNames.map (fun name => maskedSum st (st.errVal name))).sum

theorem subLossAcc_foldl_loss (st : LossSetup) (l : List String) (acc : SubLossAcc) :
    (l.foldl (subLossStep st) acc).subLoss
      = acc.subLoss + (l.map (fun n => maskedSum st (st.lossVal n) * st.lossScale n)).sum := by
  induction l generalizing acc with
  | nil => simp
  | cons a l ih =>
    rw [List.foldl_cons, ih, List.map_cons, List.sum_cons]
    unfold subLossStep
    ring_nf

theorem subLossAcc_foldl_err (st : LossSetup) (l : List String) (acc : SubLossAcc)
    (hne : l ≠ []) :
    (l.foldl (subLossStep st) acc).subError
      = l.getLast?.map (fun n => maskedSum st (st.errVal n)) := by
  induction l generalizing acc with
  | nil => exact absurd rfl hne
  | cons a l ih =>
    cases l with
    | nil => simp [subLossStep]
    | cons b l2 =>
      rw [List.foldl_cons, ih (subLossStep st acc a) (by simp),
        List.getLast?_cons_cons]

theorem subLossAcc_foldl_norm (st : LossSetup) (l : List String) (acc : SubLossAcc)
    (hne : l ≠ []) :
    (l.foldl (subLossStep st) acc).subNormFactor = some (lossNormFactor st) := by
  induction l generalizing acc with
  | nil => exact absurd rfl hne
  | cons a l ih =>
    cases l with
    | nil => simp [subLossStep]
    | cons b l2 =>
      rw [List.foldl_cons, ih (subLossStep st acc a) (by simp)]

def c7cex : LossSetup :=
  { batch := 1, maxTime := 1, seqLen := fun _ => 1,
    lossLayerNames := ["a", "b"],
    lossVal := fun _ _ _ => 0,
    errVal := fun _ _ _ => 1,
    lossScale := fun _ => 1 }

theorem c7cex_code_error : (subnetLossResult c7cex).2.1 = some 1 := by
  have hsort : List.insertionSort (fun a b : String => a ≤ b) c7cex.lossLayerNames
      = ["a", "b"] := by
    simp +decide [c7cex, List.insertionSort, List.orderedInsert]
  have hempty : c7cex.lossLayerNames.isEmpty = false := by decide
  have hval : maskedSum c7cex (c7cex.errVal "b") = 1 := by
    simp [maskedSum, c7cex, List.range_succ]
  unfold subnetLossResult
  rw [hempty, if_neg Bool.false_ne_true]
  show (subLossFold c7cex).subError = some 1
  unfold subLossFold
  rw [hsort, List.foldl_cons, List.foldl_cons, List.foldl_nil]
  unfold subLossStep
  rw [hval]

theorem c7cex_spec_error : specSubnetError c7cex = 2 := by
  show maskedSum c7cex (c7cex.errVal "a") + (maskedSum c7cex (c7cex.errVal "b") + 0) = 2
  simp [maskedSum, c7cex, List.range_succ]
  norm_num

/-- C7 counterexample: with two loss-carrying layers whose per-frame error is
`1` on a single valid frame, the exposed error is `1` (only the last layer in
sorted name order), not the over-all-layers sum `2` the claim states. -/
theorem subnetLoss_error_not_summed :
    (subnetLossResult c7cex).2.1 = some 1 ∧ specSubnetError c7cex = 2 ∧
    (subnetLossResult c7cex).2.1 ≠ some (specSubnetError c7cex) := by
  refine ⟨c7cex_code_error, c7cex_spec_error, ?_⟩
  intro h
  rw [c7cex_spec_error, c7cex_code_error] at h
  simp only [Option.some_inj] at h
  exact absurd h (by norm_num)

/-- C7 (amended): the exposed accumulated loss is the sum, over all
loss-carrying layers, of that layer's length-masked per-frame loss summed over
time and batch and scaled by its loss scale; the exposed normalization factor
is `1 / (sum of per-example sequence lengths)`; but the exposed error is only
the masked, summed error of the LAST loss-carrying layer in sorted name order
(errors are overwritten, not summed across layers). -/
theorem subnetLoss_aggregation (st : LossSetup) (hne : st.lossLayerNames ≠ []) :
    (subnetLossResult st).1
      = some ((st.lossLayerNames.map
          (fun n => maskedSum st (st.lossVal n) * st.lossScale n)).sum) ∧
    (subnetLossResult st).2.2 = some (lossNormFactor st) ∧
    (subnetLossResult st).2.1
      = (List.insertionSort (fun a b => a ≤ b) st.lossLayerNames).getLast?.map
          (fun n => maskedSum st (st.errVal n)) := by
  have hperm := List.perm_insertionSort (fun a b : String => a ≤ b) st.lossLayerNames
  have hempty : st.lossLayerNames.isEmpty = false := by
    cases h : st.lossLayerNames with
    | nil => exact absurd h hne
    | cons a l => rfl
  have hsne : List.insertionSort (fun a b : String => a ≤ b) st.lossLayerNames ≠ [] := by
    intro h
    apply hne
    have := hperm.length_eq
    rw [h] at this
    exact List.length_eq_zero.mp this.symm
  have hL : (subLossFold st).subLoss
      = (st.lossLayerNames.map (fun n => maskedSum st (st.lossVal n) * st.lossScale n)).sum := by
    unfold subLossFold
    rw [subLossAcc_foldl_loss]
    have hmp : List.Perm
        ((List.insertionSort (fun a b : String => a ≤ b) st.lossLayerNames).map
          (fun n => maskedSum st (st.lossVal n) * st.lossScale n))
        (st.lossLayerNames.map (fun n => maskedSum st (st.lossVal n) * st.lossScale n)) :=
      hperm.map _
    rw [hmp.sum_eq]
    norm_num
  have hN : (subLossFold st).subNormFactor = some (lossNormFactor st) := by
    unfold subLossFold
    rw [subLossAcc_foldl_norm st _ _ hsne]
  have hE2 : (subLossFold st).subError
      = (List.insertionSort (fun a b : String => a ≤ b) st.lossLayerNames).getLast?.map
          (fun n => maskedSum st (st.errVal n)) := by
    unfold subLossFold
    rw [subLossAcc_foldl_err st _ _ hsne]
  unfold subnetLossResult
  rw [hempty, if_neg Bool.false_ne_true]
  exact ⟨congrArg some hL, hN, hE2⟩

theorem subnetLoss_aggregation_witness :
    (subnetLossResult c7cex).1 = some 0 ∧
    (subnetLossResult c7cex).2.2 = some 1 ∧
    (subnetLossResult c7cex).2.1 = some 1 := by
  have h := subnetLoss_aggregation c7cex (by decide)
  have hsort : List.insertionSort (fun a b : String => a ≤ b) c7cex.lossLayerNames
      = ["a", "b"] := by
    simp +decide [c7cex, List.insertionSort, List.orderedInsert]
  refine ⟨?_, ?_, ?_⟩
  · rw [h.1]
    simp [c7cex, maskedSum, List.range_succ]
  · rw [h.2.1]
    simp [c7cex, lossNormFactor, List.range_succ]
  · rw [h.2.2, hsort]
    simp [c7cex, maskedSum, List.range_succ]

/-! ## Loop-variable flattening round-trip (C10)

Embedding of `_SubnetworkRecCell.get_init_loop_vars` (source lines 1170-1182),
the unflattening at the top of `get_next_loop_vars` (lines 1150-1158), and
`get_layer_rec_var_from_loop_vars` (lines 1184-1198).  Python dicts keyed by
layer name are modelled as association lists; `sorted(...)` over a key set is
`List.insertionSort` over the key list; `sorted_values_from_dict(d)` is the
map of the value function over the sorted key list; `dict_zip(keys, values)`
is `List.zip`. -/

def sortNames (l : List String) : List String :=
  List.insertionSort (fun a b => a ≤ b) l

/-- Static data of one `_SubnetworkRecCell`, as far as loop-variable handling
is concerned: the `prev:`-referenced layer names, the template layer names,
the per-layer initial output (`_get_init_output`) and the per-layer initial
extra recurrent state (`_get_init_extra_outputs`, an inner dict given by its
key list and value function). -/
structure CellVars (V : Type) where
  prevLayersNeeded : List String
  templateNames : List String
  initOut : String → V
  extraKeys : String → List String
  initExtra : String → String → V

/-- Keys of `self._initial_extra_outputs` after the non-empty filter
(source line 1178). -/
def extraNames {V : Type} (c : CellVars V) : List String :=
  c.templateNames.filter (fun n => !(c.extraKeys n).isEmpty)

/-- Embedding of `get_init_loop_vars`: flat outputs ordered by sorted
`prev_layers_needed`, flat extra state ordered by sorted extra-layer name with
each inner dict flattened by sorted inner key. -/
def getInitLoopVars {V : Type} (c : CellVars V) : List V × List (List V) :=
  ((sortNames c.prevLayersNeeded).map c.initOut,
   (sortNames (extraNames c)).map (fun k => (sortNames (c.extraKeys k)).map (c.initExtra k)))

/-- Unflattening of the previous-step outputs in `get_next_loop_vars`
(source line 1152): `{k: v for (k, v) in zip(sorted(prev_layers_needed), flat)}`. -/
def unflattenPrevOutputs {V : Type} (c : CellVars V) (flat : List V) : List (String × V) :=
  (sortNames c.prevLayersNeeded).zip flat

/-- Unflattening of the extra recurrent state (source lines 1156-1158 and
1195-1197): outer zip with the sorted extra-layer names, inner `dict_zip` with
the sorted inner keys. -/
def unflattenPrevExtra {V : Type} (c : CellVars V) (flat : List (List V)) :
    List (String × List (String × V)) :=
  ((sortNames (extraNames c)).zip flat).map
    (fun p => (p.1, (sortNames (c.extraKeys p.1)).zip p.2))

/-- Embedding of `get_layer_rec_var_from_loop_vars`: unflatten the extra state
and look the layer up (`prev_extra[layer_name]`). -/
def getLayerRecVarFromLoopVars {V : Type} (c : CellVars V)
    (loopVars : List V × List (List V)) (layerName : String) : Option (List (String × V)) :=
  (unflattenPrevExtra c loopVars.2).lookup layerName

theorem zip_self_map {α β : Type} (ks : List α) (f : α → β) :
    ks.zip (ks.map f) = ks.map (fun k => (k, f k)) := by
  induction ks with
  | nil => rfl
  | cons a ks ih => simp [ih]

theorem map_fst_pairs {α β : Type} (ks : List α) (f : α → β) :
    (ks.map (fun k => (k, f k))).map Prod.fst = ks := by
  induction ks with
  | nil => rfl
  | cons a ks ih => simp [ih]

theorem lookup_map_self {β : Type} (ks : List String) (f : String → β) (k : String)
    (hk : k ∈ ks) :
    (ks.map (fun k => (k, f k))).lookup k = some (f k) := by
  induction ks with
  | nil => exact absurd hk (List.not_mem_nil k)
  | cons a ks ih =>
    rw [List.map_cons, List.lookup_cons]
    by_cases h : k = a
    · subst h
      simp
    · have hbeq : (k == a) = false := by
        simp [h]
      rw [hbeq]
      rcases List.mem_cons.mp hk with h1 | h1
      · exact absurd h1 h
      · exact ih h1

/-- C10: flattening the carried state into loop variables and unflattening it
back is a round-trip: the loop variables are ordered by sorted layer name, the
unflattened previous-outputs dict has exactly the sorted
previous-step-referenced names as keys with each layer's initial output as
value, the unflattened extra-state dict has exactly the (sorted) names of
layers with non-empty initial extra state, and extracting any such layer's
recurrent variables from the initial loop variables returns exactly that
layer's initial extra-state dict. -/
theorem loopVars_roundTrip {V : Type} (c : CellVars V) :
    unflattenPrevOutputs c (getInitLoopVars c).1
      = (sortNames c.prevLayersNeeded).map (fun k => (k, c.initOut k)) ∧
    (unflattenPrevOutputs c (getInitLoopVars c).1).map Prod.fst
      = sortNames c.prevLayersNeeded ∧
    (unflattenPrevExtra c (getInitLoopVars c).2).map Prod.fst
      = sortNames (extraNames c) ∧
    (∀ name ∈ extraNames c,
      getLayerRecVarFromLoopVars c (getInitLoopVars c) name
        = some ((sortNames (c.extraKeys name)).map (fun ik => (ik, c.initExtra name ik)))) := by
  have h1 : unflattenPrevOutputs c (getInitLoopVars c).1
      = (sortNames c.prevLayersNeeded).map (fun k => (k, c.initOut k)) := by
    unfold unflattenPrevOutputs getInitLoopVars
    exact zip_self_map _ _
  have h3 : unflattenPrevExtra c (getInitLoopVars c).2
      = (sortNames (extraNames c)).map
          (fun k => (k, (sortNames (c.extraKeys k)).map (fun ik => (ik, c.initExtra k ik)))) := by
    unfold unflattenPrevExtra getInitLoopVars
    rw [zip_self_map]
    rw [List.map_map]
    refine List.map_congr_left ?_
    intro k _
    simp only [Function.comp]
    rw [zip_self_map]
  refine ⟨h1, ?_, ?_, ?_⟩
  · rw [h1, map_fst_pairs]
  · rw [h3, map_fst_pairs]
  · intro name hname
    unfold getLayerRecVarFromLoopVars
    rw [h3]
    have hmem : name ∈ sortNames (extraNames c) :=
      (List.perm_insertionSort _ (extraNames c)).mem_iff.mpr hname
    exact lookup_map_self _ _ name hmem

def c10cell : CellVars Nat :=
  { prevLayersNeeded := ["output", "att"]
    templateNames := ["output", "att", "rnn", "end"]
    initOut := fun _ => 0
    extraKeys := fun n => if n = "rnn" then ["h", "c"] else []
    initExtra := fun _ ik => if ik = "c" then 10 else 20 }

theorem loopVars_roundTrip_witness :
    getLayerRecVarFromLoopVars c10cell (getInitLoopVars c10cell) "rnn"
      = some [("c", 10), ("h", 20)] := by
  have h := (loopVars_roundTrip c10cell).2.2.2 "rnn" (by decide)
  rw [h]
  have hsort : sortNames (c10cell.extraKeys "rnn") = ["c", "h"] := by
    simp +decide [c10cell, sortNames, List.insertionSort, List.orderedInsert]
  rw [hsort]
  decide

/-! ## Hoisting analysis `move_outside_loop` (C6)

Embedding of `_SubnetworkRecCell.move_outside_loop` (source lines 1220-1301).
A template layer is a name plus the names of its dependencies inside the
subnetwork (`get_dep_layers`; dependencies on parent-net layers can never
coincide with in-loop template layers and are therefore irrelevant to every
membership test the source performs, so they are not represented).
`layers_in_loop` starts as the templates sorted by name
(`sorted(self.layer_data_templates.items())`), `needed_outputs` as
`["output"]`, and the loop alternates one output-side and one input-side
hoisting attempt until neither succeeds. -/

structure TLayer where
  name : String
  deps : List String
deriving DecidableEq

structure MoveState where
  layersInLoop : List TLayer
  inputMovedOut : List TLayer
  outputMovedOut : List TLayer
  neededOutputs : List String
deriving DecidableEq

/-- Embedding of `output_can_move_out`: the layer's output from the previous
frame is not used (`layers_needed_from_prev_frame`) and no layer still in the
loop depends on it. -/
def outputCanMoveOut (pn : List String) (st : MoveState) (l : TLayer) : Bool :=
  !(pn.contains l.name) && st.layersInLoop.all (fun o => !(o.deps.contains l.name))

/-- Embedding of `find_output_layer_to_move_out`: first in-loop layer that is
in `needed_outputs` and can move out. -/
def findOutputLayerToMoveOut (pn : List String) (st : MoveState) : Option TLayer :=
  st.layersInLoop.find? (fun l => st.neededOutputs.contains l.name && outputCanMoveOut pn st l)

/-- Embedding of `output_move_out`. -/
def outputMoveOut (l : TLayer) (st : MoveState) : MoveState :=
  { layersInLoop := st.layersInLoop.erase l
    inputMovedOut := st.inputMovedOut
    outputMovedOut := st.outputMovedOut ++ [l]
    neededOutputs := st.neededOutputs.erase l.name }

/-- Embedding of `input_can_move_out`: no dependency of the layer is still in
the loop. -/
def inputCanMoveOut (st : MoveState) (l : TLayer) : Bool :=
  st.layersInLoop.all (fun o => !(l.deps.contains o.name))

/-- Embedding of `find_input_layer_to_move_out`. -/
def findInputLayerToMoveOut (st : MoveState) : Option TLayer :=
  st.layersInLoop.find? (inputCanMoveOut st)

/-- Embedding of `input_move_out` (the guarded `needed_outputs.remove` is an
erase that is the identity when the name is absent). -/
def inputMoveOut (l : TLayer) (st : MoveState) : MoveState :=
  { layersInLoop := st.layersInLoop.erase l
    inputMovedOut := st.inputMovedOut ++ [l]
    outputMovedOut := st.outputMovedOut
    neededOutputs := st.neededOutputs.erase l.name }

/-- One iteration of the `while True:` loop: try one output-side move, then
one input-side move on the resulting state; `none` signals the `break`
(neither attempt succeeded). -/
def moveStep (pn : List String) (st : MoveState) : Option MoveState :=
  match findOutputLayerToMoveOut pn st with
  | some lo =>
    match findInputLayerToMoveOut (outputMoveOut lo st) with
    | some li => some (inputMoveOut li (outputMoveOut lo st))
    | none => some (outputMoveOut lo st)
  | none =>
    match findInputLayerToMoveOut st with
    | some li => some (inputMoveOut li st)
    | none => none

/-- Iterate `moveStep` until it breaks; the fuel `layersInLoop.length` is an
upper bound on the number of iterations since every non-breaking iteration
removes at least one layer from the loop. -/
def moveLoopAux (pn : List String) : Nat → MoveState → MoveState
  | 0, st => st
  | fuel + 1, st =>
    match moveStep pn st with
    | some st2 => moveLoopAux pn fuel st2
    | none => st

def initMoveState (templates : List TLayer) : MoveState :=
  { layersInLoop := List.insertionSort (fun a b => a.name ≤ b.name) templates
    inputMovedOut := []
    outputMovedOut := []
    neededOutputs := ["output"] }

def moveOutsideLoop (templates : List TLayer) (pn : List String) : MoveState :=
  moveLoopAux pn (initMoveState templates).layersInLoop.length (initMoveState templates)

/-- Guard under which the source moves a layer to the output side, stated
over a given in-loop set. -/
def outGuard (pn : List String) (loopL : List TLayer) (l : TLayer) : Prop :=
  pn.contains l.name = false ∧ ∀ o ∈ loopL, o.deps.contains l.name = false

/-- Guard under which the source moves a layer to the input side, stated over
a given in-loop set. -/
def inGuard (loopL : List TLayer) (l : TLayer) : Prop :=
  ∀ o ∈ loopL, l.deps.contains o.name = false

/-- Loop invariant of `move_outside_loop`: the three sets partition the
original templates (as a permutation of their concatenation), and every moved
layer satisfied its guard — which only strengthens as the in-loop set
shrinks. -/
def MoveInv (pn : List String) (base : List TLayer) (st : MoveState) : Prop :=
  List.Perm (st.layersInLoop ++ st.inputMovedOut ++ st.outputMovedOut) base ∧
  (∀ l ∈ st.outputMovedOut, outGuard pn st.layersInLoop l) ∧
  (∀ l ∈ st.inputMovedOut, inGuard st.layersInLoop l)

theorem outGuard_anti {pn : List String} {loopL loopL2 : List TLayer} {l : TLayer}
    (hsub : loopL2 ⊆ loopL) (h : outGuard pn loopL l) : outGuard pn loopL2 l :=
  ⟨h.1, fun o ho => h.2 o (hsub ho)⟩

theorem inGuard_anti {loopL loopL2 : List TLayer} {l : TLayer}
    (hsub : loopL2 ⊆ loopL) (h : inGuard loopL l) : inGuard loopL2 l :=
  fun o ho => h o (hsub ho)

theorem outputCanMoveOut_guard {pn : List String} {st : MoveState} {l : TLayer}
    (h : outputCanMoveOut pn st l = true) : outGuard pn st.layersInLoop l := by
  unfold outputCanMoveOut at h
  rw [Bool.and_eq_true, Bool.not_eq_true', List.all_eq_true] at h
  refine ⟨h.1, fun o ho => ?_⟩
  have := h.2 o ho
  rwa [Bool.not_eq_true'] at this

theorem inputCanMoveOut_guard {st : MoveState} {l : TLayer}
    (h : inputCanMoveOut st l = true) : inGuard st.layersInLoop l := by
  unfold inputCanMoveOut at h
  rw [List.all_eq_true] at h
  intro o ho
  have := h o ho
  rwa [Bool.not_eq_true'] at this

theorem outputMoveOut_inv {pn : List String} {base : List TLayer} {st : MoveState}
    {l : TLayer} (hinv : MoveInv pn base st)
    (hfind : findOutputLayerToMoveOut pn st = some l) :
    MoveInv pn base (outputMoveOut l st) := by
  obtain ⟨hperm, hout, hin⟩ := hinv
  have hmem : l ∈ st.layersInLoop := List.mem_of_find?_eq_some hfind
  have hpred := List.find?_some hfind
  rw [Bool.and_eq_true] at hpred
  have hguard : outGuard pn st.layersInLoop l := outputCanMoveOut_guard hpred.2
  have hsub : st.layersInLoop.erase l ⊆ st.layersInLoop := List.erase_subset l _
  have hLperm : List.Perm st.layersInLoop (l :: st.layersInLoop.erase l) :=
    List.perm_cons_erase hmem
  refine ⟨?_, ?_, ?_⟩
  · show List.Perm (st.layersInLoop.erase l ++ st.inputMovedOut ++ (st.outputMovedOut ++ [l])) base
    refine List.Perm.trans ?_ hperm
    have h2 : List.Perm
        (st.layersInLoop.erase l ++ st.inputMovedOut ++ (st.outputMovedOut ++ [l]))
        (st.layersInLoop.erase l ++ st.inputMovedOut ++ (l :: st.outputMovedOut)) :=
      List.Perm.append_left _ (List.perm_append_singleton l _)
    have h3 : List.Perm
        (st.layersInLoop.erase l ++ st.inputMovedOut ++ (l :: st.outputMovedOut))
        (l :: (st.layersInLoop.erase l ++ st.inputMovedOut ++ st.outputMovedOut)) :=
      List.perm_middle
    have h4 : List.Perm
        (l :: (st.layersInLoop.erase l ++ st.inputMovedOut ++ st.outputMovedOut))
        (st.layersInLoop ++ st.inputMovedOut ++ st.outputMovedOut) :=
      List.Perm.append_right _ (List.Perm.append_right _ hLperm.symm)
    exact h2.trans (h3.trans h4)
  · intro x hx
    rcases List.mem_append.mp hx with hx1 | hx2
    · exact outGuard_anti hsub (hout x hx1)
    · rw [List.mem_singleton.mp hx2]
      exact outGuard_anti hsub hguard
  · intro x hx
    exact inGuard_anti hsub (hin x hx)

theorem inputMoveOut_inv {pn : List String} {base : List TLayer} {st : MoveState}
    {l : TLayer} (hinv : MoveInv pn base st)
    (hfind : findInputLayerToMoveOut st = some l) :
    MoveInv pn base (inputMoveOut l st) := by
  obtain ⟨hperm, hout, hin⟩ := hinv
  have hmem : l ∈ st.layersInLoop := List.mem_of_find?_eq_some hfind
  have hpred := List.find?_some hfind
  have hguard : inGuard st.layersInLoop l := inputCanMoveOut_guard hpred
  have hsub : st.layersInLoop.erase l ⊆ st.layersInLoop := List.erase_subset l _
  have hLperm : List.Perm st.layersInLoop (l :: st.layersInLoop.erase l) :=
    List.perm_cons_erase hmem
  refine ⟨?_, ?_, ?_⟩
  · show List.Perm (st.layersInLoop.erase l ++ (st.inputMovedOut ++ [l]) ++ st.outputMovedOut) base
    refine List.Perm.trans ?_ hperm
    have h2 : List.Perm
        (st.layersInLoop.erase l ++ (st.inputMovedOut ++ [l]) ++ st.outputMovedOut)
        (st.layersInLoop.erase l ++ (l :: st.inputMovedOut) ++ st.outputMovedOut) :=
      List.Perm.append_right _ (List.Perm.append_left _ (List.perm_append_singleton l _))
    have h3 : List.Perm
        (st.layersInLoop.erase l ++ (l :: st.inputMovedOut) ++ st.outputMovedOut)
        ((l :: (st.layersInLoop.erase l ++ st.inputMovedOut)) ++ st.outputMovedOut) :=
      List.Perm.append_right _ List.perm_middle
    have h4 : List.Perm
        ((l :: (st.layersInLoop.erase l ++ st.inputMovedOut)) ++ st.outputMovedOut)
        (st.layersInLoop ++ st.inputMovedOut ++ st.outputMovedOut) :=
      List.Perm.append_right _ (List.Perm.append_right _ hLperm.symm)
    exact h2.trans (h3.trans h4)
  · intro x hx
    exact outGuard_anti hsub (hout x hx)
  · intro x hx
    rcases List.mem_append.mp hx with hx1 | hx2
    · exact inGuard_anti hsub (hin x hx1)
    · rw [List.mem_singleton.mp hx2]
      exact inGuard_anti hsub hguard

theorem moveStep_inv {pn : List String} {base : List TLayer} {st st2 : MoveState}
    (hinv : MoveInv pn base st) (hstep : moveStep pn st = some st2) :
    MoveInv pn base st2 := by
  unfold moveStep at hstep
  split at hstep
  · next lo ho =>
    have hinv1 : MoveInv pn base (outputMoveOut lo st) := outputMoveOut_inv hinv ho
    split at hstep
    · next li hi =>
      rw [← Option.some_inj.mp hstep]
      exact inputMoveOut_inv hinv1 hi
    · next hi =>
      rw [← Option.some_inj.mp hstep]
      exact hinv1
  · next ho =>
    split at hstep
    · next li hi =>
      rw [← Option.some_inj.mp hstep]
      exact inputMoveOut_inv hinv hi
    · next hi => exact absurd hstep (by simp)

theorem moveStep_nil {pn : List String} {st : MoveState}
    (h : st.layersInLoop = []) : moveStep pn st = none := by
  have h1 : findOutputLayerToMoveOut pn st = none := by
    unfold findOutputLayerToMoveOut
    rw [h]
    rfl
  have h2 : findInputLayerToMoveOut st = none := by
    unfold findInputLayerToMoveOut
    rw [h]
    rfl
  unfold moveStep
  rw [h1, h2]

theorem length_pos_of_mem {α : Type} {l : List α} {a : α} (h : a ∈ l) : 0 < l.length := by
  cases l with
  | nil => exact absurd h (List.not_mem_nil a)
  | cons b l2 => simp

theorem moveStep_length {pn : List String} {st st2 : MoveState}
    (hstep : moveStep pn st = some st2) :
    st2.layersInLoop.length < st.layersInLoop.length := by
  unfold moveStep at hstep
  split at hstep
  · next lo ho =>
    have hmem : lo ∈ st.layersInLoop := List.mem_of_find?_eq_some ho
    have hpos : 0 < st.layersInLoop.length := length_pos_of_mem hmem
    have hlen1 : (outputMoveOut lo st).layersInLoop.length = st.layersInLoop.length - 1 := by
      show (st.layersInLoop.erase lo).length = _
      rw [List.length_erase_of_mem hmem]
    split at hstep
    · next li hi =>
      rw [← Option.some_inj.mp hstep]
      have hmem2 : li ∈ (outputMoveOut lo st).layersInLoop := List.mem_of_find?_eq_some hi
      have hpos2 : 0 < (outputMoveOut lo st).layersInLoop.length := length_pos_of_mem hmem2
      show ((outputMoveOut lo st).layersInLoop.erase li).length < _
      rw [List.length_erase_of_mem hmem2]
      omega
    · next hi =>
      rw [← Option.some_inj.mp hstep]
      omega
  · next ho =>
    split at hstep
    · next li hi =>
      rw [← Option.some_inj.mp hstep]
      have hmem : li ∈ st.layersInLoop := List.mem_of_find?_eq_some hi
      have hpos : 0 < st.layersInLoop.length := length_pos_of_mem hmem
      show (st.layersInLoop.erase li).length < _
      rw [List.length_erase_of_mem hmem]
      omega
    · next hi => exact absurd hstep (by simp)

theorem moveLoopAux_inv {pn : List String} {base : List TLayer} :
    ∀ fuel st, MoveInv pn base st → MoveInv pn base (moveLoopAux pn fuel st) := by
  intro fuel
  induction fuel with
  | zero => intro st h; exact h
  | succ fuel ih =>
    intro st h
    unfold moveLoopAux
    rcases hstep : moveStep pn st with _ | st2
    · exact h
    · exact ih st2 (moveStep_inv h hstep)

theorem moveLoopAux_stops {pn : List String} :
    ∀ fuel st, st.layersInLoop.length ≤ fuel →
      moveStep pn (moveLoopAux pn fuel st) = none := by
  intro fuel
  induction fuel with
  | zero =>
    intro st h
    show moveStep pn st = none
    exact moveStep_nil (List.length_eq_zero.mp (by omega))
  | succ fuel ih =>
    intro st h
    unfold moveLoopAux
    rcases hstep : moveStep pn st with _ | st2
    · exact hstep
    · exact ih st2 (by have := moveStep_length hstep; omega)

/-- C6: `move_outside_loop` terminates — its final state admits no further
hoisting move — and on termination the in-loop layers, the input layers moved
out and the output layers moved out form a partition of all template layers
(their concatenation is a permutation of the templates); every layer moved to
the output side is not needed as a previous-step value and no layer remaining
in the loop depends on it, and every layer moved to the input side has no
dependency remaining in the loop. -/
theorem moveOutsideLoop_partition (templates : List TLayer) (pn : List String) :
    List.Perm ((moveOutsideLoop templates pn).layersInLoop
        ++ (moveOutsideLoop templates pn).inputMovedOut
        ++ (moveOutsideLoop templates pn).outputMovedOut) templates ∧
    moveStep pn (moveOutsideLoop templates pn) = none ∧
    (∀ l ∈ (moveOutsideLoop templates pn).outputMovedOut,
      pn.contains l.name = false ∧
        ∀ o ∈ (moveOutsideLoop templates pn).layersInLoop,
          o.deps.contains l.name = false) ∧
    (∀ l ∈ (moveOutsideLoop templates pn).inputMovedOut,
      ∀ o ∈ (moveOutsideLoop templates pn).layersInLoop,
        l.deps.contains o.name = false) := by
  have hinit : MoveInv pn templates (initMoveState templates) := by
    refine ⟨?_, ?_, ?_⟩
    · show List.Perm (List.insertionSort (fun a b => a.name ≤ b.name) templates ++ [] ++ []) _
      rw [List.append_nil, List.append_nil]
      exact List.perm_insertionSort _ templates
    · intro l hl
      exact absurd hl (List.not_mem_nil l)
    · intro l hl
      exact absurd hl (List.not_mem_nil l)
  have hfin : MoveInv pn templates (moveOutsideLoop templates pn) :=
    moveLoopAux_inv _ _ hinit
  refine ⟨hfin.1, ?_, hfin.2.1, hfin.2.2⟩
  exact moveLoopAux_stops _ _ (le_refl _)

def c6templates : List TLayer :=
  [{ name := "output", deps := ["rnn"] },
   { name := "rnn", deps := ["input0"] },
   { name := "input0", deps := [] }]

def c6pn : List String := ["rnn"]

theorem moveOutsideLoop_partition_witness :
    ({ name := "output", deps := ["rnn"] } : TLayer)
        ∈ (moveOutsideLoop c6templates c6pn).outputMovedOut ∧
    (c6pn.contains "output" = false ∧
      ∀ o ∈ (moveOutsideLoop c6templates c6pn).layersInLoop,
        o.deps.contains "output" = false) := by
  have heval : moveOutsideLoop c6templates c6pn =
      { layersInLoop := []
        inputMovedOut := [{ name := "input0", deps := [] }, { name := "rnn", deps := ["input0"] }]
        outputMovedOut := [{ name := "output", deps := ["rnn"] }]
        neededOutputs := [] } := by
    simp +decide [moveOutsideLoop, moveLoopAux, moveStep, findOutputLayerToMoveOut,
      findInputLayerToMoveOut, outputMoveOut, inputMoveOut, outputCanMoveOut, inputCanMoveOut,
      initMoveState, c6templates, c6pn, List.insertionSort, List.orderedInsert]
  have hmem : ({ name := "output", deps := ["rnn"] } : TLayer)
      ∈ (moveOutsideLoop c6templates c6pn).outputMovedOut := by
    rw [heval]
    exact List.mem_singleton.mpr rfl
  exact ⟨hmem,
    (moveOutsideLoop_partition c6templates c6pn).2.2.1
      { name := "output", deps := ["rnn"] } hmem⟩

/-! ## ChoiceLayer beam expansion and top-k pruning (C1)

Embedding of `ChoiceLayer.__init__` in search mode (source lines 1728-1766):
the incoming accumulated beam scores `scores_base` have shape
`(batch, beam_in)`; the source layer's per-value score contributions
`scores_in` have shape `(batch * beam_in, dim)` and are mapped through
`tf.log` first when `input_type == "prob"` (`tf.log` itself is external
numerics, modelled by the oracle `logFn`); the broadcast sum is reshaped to
`(batch, beam_in * dim)`; `tf.nn.top_k` (modelled as: stable sort of the
index/score pairs by score descending, ties broken towards the lower
flattened index, then take `beam_size`) yields the kept flattened labels;
`src_beams = labels // dim` and the visible output is `labels % dim`. -/

inductive SIType
  | prob
  | logProb
deriving DecidableEq

structure ChoiceSetup where
  batch : Nat
  beamIn : Nat
  dim : Nat
  beamSize : Nat
  inputType : SIType
  logFn : ℚ → ℚ
  scoresBase : Nat → Nat → ℚ
  scoresInFlat : Nat → Nat → ℚ

def scoreContrib (c : ChoiceSetup) (x : ℚ) : ℚ :=
  match c.inputType with
  | .prob => c.logFn x
  | .logProb => x

def addedScores (c : ChoiceSetup) (b j d : Nat) : ℚ :=
  scoreContrib c (c.scoresInFlat (b * c.beamIn + j) d) + c.scoresBase b j

def scoresInFlatRow (c : ChoiceSetup) (b : Nat) : List ℚ :=
  ((List.range c.beamIn).map (fun j => (List.range c.dim).map (fun d => addedScores c b j d))).flatten

def candList (c : ChoiceSetup) (b : Nat) : List (Nat × ℚ) :=
  (List.range (c.beamIn * c.dim)).zip (scoresInFlatRow c b)

def topkRel (a b : Nat × ℚ) : Prop :=
  b.2 < a.2 ∨ (a.2 = b.2 ∧ a.1 ≤ b.1)

instance : DecidableRel topkRel := fun a b => by
  unfold topkRel
  infer_instance

instance : IsTrans (Nat × ℚ) topkRel := by
  constructor
  intro a b c hab hbc
  rcases hab with h1 | ⟨h1, h2⟩ <;> rcases hbc with h3 | ⟨h3, h4⟩ <;> unfold topkRel
  · left; exact h3.trans h1
  · left; rw [← h3]; exact h1
  · left; rw [h1]; exact h3
  · right; exact ⟨h1.trans h3, h2.trans h4⟩

instance : IsTotal (Nat × ℚ) topkRel := by
  constructor
  intro a b
  rcases lt_trichotomy a.2 b.2 with h | h | h
  · right; left; exact h
  · rcases Nat.le_total a.1 b.1 with h2 | h2
    · left; right; exact ⟨h, h2⟩
    · right; right; exact ⟨h.symm, h2⟩
  · left; left; exact h

theorem flatten_mapRange {α : Type} (m n : Nat) (g : Nat → Nat → α) :
    ((List.range m).map (fun j => (List.range n).map (fun d => g j d))).flatten
      = (List.range (m * n)).map (fun idx => g (idx / n) (idx % n)) := by
  induction m with
  | zero => simp
  | succ m ih =>
    rw [List.range_succ, List.map_append, List.flatten_append, ih, Nat.succ_mul,
      List.range_add, List.map_append]
    have hsecond : (List.map (fun j => List.map (fun d => g j d) (List.range n)) [m]).flatten
        = List.map (fun idx => g (idx / n) (idx % n))
            (List.map (fun i => m * n + i) (List.range n)) := by
      simp only [List.map_cons, List.map_nil, List.flatten_cons, List.flatten_nil,
        List.append_nil, List.map_map]
      refine List.map_congr_left ?_
      intro d hd
      rw [List.mem_range] at hd
      have hn : 0 < n := by omega
      simp only [Function.comp]
      have hdiv : (m * n + d) / n = m := by
        rw [Nat.add_comm, Nat.add_mul_div_right d m hn, Nat.div_eq_of_lt hd]
        omega
      have hmod : (m * n + d) % n = d := by
        rw [Nat.add_comm, Nat.add_mul_mod_self_right, Nat.mod_eq_of_lt hd]
      rw [hdiv, hmod]
    rw [hsecond]

theorem candList_eq (c : ChoiceSetup) (b : Nat) :
    candList c b = (List.range (c.beamIn * c.dim)).map
      (fun idx => (idx, addedScores c b (idx / c.dim) (idx % c.dim))) := by
  unfold candList scoresInFlatRow
  rw [flatten_mapRange, zip_self_map]

def sortedCands (c : ChoiceSetup) (b : Nat) : List (Nat × ℚ) :=
  List.insertionSort topkRel (candList c b)

def topK (c : ChoiceSetup) (b : Nat) : List (Nat × ℚ) :=
  (sortedCands c b).take c.beamSize

def srcBeams (c : ChoiceSetup) (b : Nat) : List Nat :=
  (topK c b).map (fun p => p.1 / c.dim)

def chosenLabels (c : ChoiceSetup) (b : Nat) : List Nat :=
  (topK c b).map (fun p => p.1 % c.dim)

theorem mem_candList {c : ChoiceSetup} {b : Nat} {p : Nat × ℚ} (hp : p ∈ candList c b) :
    p.1 < c.beamIn * c.dim ∧ p.2 = addedScores c b (p.1 / c.dim) (p.1 % c.dim) := by
  rw [candList_eq] at hp
  obtain ⟨idx, hidx, heq⟩ := List.mem_map.mp hp
  rw [List.mem_range] at hidx
  rw [← heq]
  exact ⟨hidx, rfl⟩

/-- C1: at a choice-point layer in search mode, the candidate scores add the
per-value score contributions (log applied first when the input is in
probability space) to the incoming per-example, per-beam-slot accumulated
scores; the `(examples, beam_in, dim)` matrix is flattened over its last two
axes and the top-K entries per example are selected by score (every selected
score is at least every non-selected candidate score, and exactly K slots are
kept); each retained slot's recorded parent beam slot is its flattened index
divided by D and its chosen value — its visible output — is the flattened
index modulo D. -/
theorem choiceLayer_topK (c : ChoiceSetup) (b : Nat) (hK : c.beamSize ≤ c.beamIn * c.dim) :
    (topK c b).length = c.beamSize ∧
    (∀ p ∈ topK c b,
      p.1 < c.beamIn * c.dim ∧
      p.1 / c.dim < c.beamIn ∧
      p.2 = scoreContrib c (c.scoresInFlat (b * c.beamIn + p.1 / c.dim) (p.1 % c.dim))
              + c.scoresBase b (p.1 / c.dim)) ∧
    srcBeams c b = (topK c b).map (fun p => p.1 / c.dim) ∧
    chosenLabels c b = (topK c b).map (fun p => p.1 % c.dim) ∧
    (∀ q ∈ candList c b, q ∉ topK c b → ∀ p ∈ topK c b, q.2 ≤ p.2) := by
  have hperm := List.perm_insertionSort topkRel (candList c b)
  have hsorted := List.sorted_insertionSort topkRel (candList c b)
  have hlen : (sortedCands c b).length = c.beamIn * c.dim := by
    unfold sortedCands
    rw [hperm.length_eq, candList_eq, List.length_map, List.length_range]
  refine ⟨?_, ?_, rfl, rfl, ?_⟩
  · unfold topK
    rw [List.length_take, hlen]
    omega
  · intro p hp
    have hps : p ∈ sortedCands c b := List.mem_of_mem_take hp
    have hpc : p ∈ candList c b := hperm.mem_iff.mp hps
    obtain ⟨h1, h2⟩ := mem_candList hpc
    refine ⟨h1, ?_, h2⟩
    rcases Nat.eq_zero_or_pos c.dim with hd | hd
    · rw [hd, Nat.mul_zero] at h1; omega
    · exact (Nat.div_lt_iff_lt_mul hd).mpr h1
  · intro q hq hqt p hp
    have hqs : q ∈ sortedCands c b := hperm.mem_iff.mpr hq
    have hsplit : sortedCands c b
        = (sortedCands c b).take c.beamSize ++ (sortedCands c b).drop c.beamSize :=
      (List.take_append_drop _ _).symm
    have hqd : q ∈ (sortedCands c b).drop c.beamSize := by
      rw [hsplit] at hqs
      rcases List.mem_append.mp hqs with h | h
      · exact absurd h hqt
      · exact h
    have hpair : List.Pairwise topkRel
        ((sortedCands c b).take c.beamSize ++ (sortedCands c b).drop c.beamSize) := by
      rw [← hsplit]
      exact hsorted
    have hrel : topkRel p q := (List.pairwise_append.mp hpair).2.2 p hp q hqd
    rcases hrel with h | ⟨h, _⟩
    · exact le_of_lt h
    · exact le_of_eq h.symm

def c1setup : ChoiceSetup :=
  { batch := 1, beamIn := 2, dim := 3, beamSize := 2,
    inputType := .logProb, logFn := id,
    scoresBase := fun _ j => if j = 0 then 0 else 10,
    scoresInFlat := fun r d =>
      if r = 0 then (if d = 0 then 1 else if d = 1 then 2 else 3)
      else (if d = 0 then 4 else if d = 1 then 5 else 6) }

theorem c1cand_eval : candList c1setup 0 = [(0,1),(1,2),(2,3),(3,14),(4,15),(5,16)] := by
  rw [candList_eq]
  norm_num [c1setup, addedScores, scoreContrib, List.range_succ]

theorem c1sort_eval : List.insertionSort topkRel [((0:Nat),(1:ℚ)),(1,2),(2,3),(3,14),(4,15),(5,16)]
    = [(5,16),(4,15),(3,14),(2,3),(1,2),(0,1)] := by
  norm_num [List.insertionSort, List.orderedInsert, topkRel]

theorem c1topK_eval : topK c1setup 0 = [(5,16),(4,15)] := by
  unfold topK sortedCands
  rw [c1cand_eval, c1sort_eval]
  rfl

theorem choiceLayer_topK_witness :
    topK c1setup 0 = [(5, 16), (4, 15)] ∧
    srcBeams c1setup 0 = [1, 1] ∧
    chosenLabels c1setup 0 = [2, 1] ∧
    (topK c1setup 0).length = c1setup.beamSize := by
  have h := choiceLayer_topK c1setup 0 (by decide)
  refine ⟨c1topK_eval, ?_, ?_, h.1⟩
  · rw [h.2.2.1, c1topK_eval]
    decide
  · rw [h.2.2.2.1, c1topK_eval]
    decide

/-! ## Post-loop backward search resolution (C2)

Embedding of the resolution pass in `RecLayer._get_output_subnet_unit`
(source lines 848-921): `initial_beam_choices` is `tf.range(beam_out)`
broadcast over the batch; `search_resolve_body` runs from
`i = final_acc_tas[0].size() - 1` down to `0` (modelled with exactly that many
structural iterations).  Each iteration gathers the recorded per-step parent
slots `choice_*` at the currently tracked beams, re-indexes the raw
accumulated `output_output` value (reshaped `(batch, beam)`, row-major) at the
currently tracked beams, writes it to the fresh output accumulator, and
continues with the gathered parents.  The single-choice-layer chain is
modelled (the inner `while True` walks to the previous frame immediately).
`hypSlot` is the lineage of a final hypothesis: its own index at the last
step, and the recorded parent slot of its successor at every earlier step. -/

structure ResolveSetup where
  batch : Nat
  beamOut : Nat
  tSteps : Nat
  accChoice : Nat → Nat → Nat → Nat
  accOutput : Nat → Nat → ℚ

def resolveStepBeams (s : ResolveSetup) (i : Nat) (cb : Nat → Nat → Nat) : Nat → Nat → Nat :=
  fun b k => s.accChoice i b (cb b k)

def resolveStepOutput (s : ResolveSetup) (i : Nat) (cb : Nat → Nat → Nat) : Nat → ℚ :=
  fun n => s.accOutput i ((n / s.beamOut) * s.beamOut + cb (n / s.beamOut) (n % s.beamOut))

def searchResolveLoop (s : ResolveSetup) :
    Nat → (Nat → Nat → Nat) → (Nat → Nat → ℚ) → (Nat → Nat → ℚ)
  | 0, _, acc => acc
  | n + 1, cb, acc =>
    searchResolveLoop s n (resolveStepBeams s n cb)
      (fun i2 => if i2 = n then resolveStepOutput s n cb else acc i2)

def searchResolve (s : ResolveSetup) : Nat → Nat → ℚ :=
  searchResolveLoop s s.tSteps (fun _ k => k) (fun _ _ => 0)

def lineageFrom (s : ResolveSetup) (cb : Nat → Nat → Nat) (top : Nat) : Nat → Nat → Nat → Nat
  | 0, b, h => cb b h
  | d + 1, b, h => s.accChoice (top - d) b (lineageFrom s cb top d b h)

def hypSlot (s : ResolveSetup) : Nat → Nat → Nat → Nat
  | 0, _, h => h
  | d + 1, b, h => s.accChoice (s.tSteps - 1 - d) b (hypSlot s d b h)

theorem resolveLoop_frozen (s : ResolveSetup) :
    ∀ n cb acc i2, n ≤ i2 → searchResolveLoop s n cb acc i2 = acc i2 := by
  intro n
  induction n with
  | zero => intro cb acc i2 h; rfl
  | succ n ih =>
    intro cb acc i2 h
    show searchResolveLoop s n _ _ i2 = _
    rw [ih _ _ i2 (by omega)]
    show (if i2 = n then resolveStepOutput s n cb else acc i2) = acc i2
    rw [if_neg (by omega)]

theorem lineageFrom_shift (s : ResolveSetup) (n : Nat) (cb : Nat → Nat → Nat) :
    ∀ d b h, lineageFrom s (resolveStepBeams s n cb) (n - 1) d b h
      = lineageFrom s cb n (d + 1) b h := by
  intro d
  induction d with
  | zero =>
    intro b h
    show s.accChoice n b (cb b h) = s.accChoice (n - 0) b (lineageFrom s cb n 0 b h)
    rw [Nat.sub_zero]
    rfl
  | succ d ih =>
    intro b h
    show s.accChoice (n - 1 - d) b _ = s.accChoice (n - (d + 1)) b _
    rw [ih b h]
    congr 1
    omega

theorem resolveLoop_spec (s : ResolveSetup) :
    ∀ n cb acc i, i < n → ∀ b k, k < s.beamOut →
      searchResolveLoop s n cb acc i (b * s.beamOut + k)
        = s.accOutput i (b * s.beamOut + lineageFrom s cb (n - 1) (n - 1 - i) b k) := by
  intro n
  induction n with
  | zero => intro cb acc i h; omega
  | succ n ih =>
    intro cb acc i hi b k hk
    rcases Nat.lt_or_ge i n with h | h
    · show searchResolveLoop s n _ _ i _ = _
      rw [ih _ _ i h b k hk]
      have hd : n + 1 - 1 - i = (n - 1 - i) + 1 := by omega
      rw [hd]
      have hshift := lineageFrom_shift s n cb (n - 1 - i) b k
      rw [Nat.add_sub_cancel, hshift]
    · have hieq : i = n := by omega
      subst hieq
      show searchResolveLoop s i _ _ i _ = _
      rw [resolveLoop_frozen s i _ _ i (le_refl i)]
      rw [if_pos rfl]
      simp only [resolveStepOutput]
      have hbo : 0 < s.beamOut := by omega
      have hdiv : (b * s.beamOut + k) / s.beamOut = b := by
        rw [Nat.add_comm, Nat.mul_comm, Nat.add_mul_div_left k b hbo, Nat.div_eq_of_lt hk]
        omega
      have hmod : (b * s.beamOut + k) % s.beamOut = k := by
        rw [Nat.add_comm, Nat.add_mul_mod_self_right, Nat.mod_eq_of_lt hk]
      rw [hdiv, hmod]
      show s.accOutput i (b * s.beamOut + cb b k) = _
      have hz : i + 1 - 1 - i = 0 := by omega
      rw [hz]
      rfl

theorem hypSlot_eq_lineageFrom (s : ResolveSetup) :
    ∀ d b h, hypSlot s d b h = lineageFrom s (fun _ k => k) (s.tSteps - 1) d b h := by
  intro d
  induction d with
  | zero => intro b h; rfl
  | succ d ih =>
    intro b h
    show s.accChoice (s.tSteps - 1 - d) b _ = s.accChoice (s.tSteps - 1 - d) b _
    rw [ih b h]

/-- C2: the backward resolution pass starts at the last executed step and
walks down to step 0; at each step it re-indexes that step's raw accumulated
output by the currently tracked hypothesis slots and continues the walk with
the recorded parent slots, so the resulting per-hypothesis output sequence
follows the hypothesis's lineage through the recorded parent slots for every
step, not the raw slot positions. -/
theorem searchResolve_lineage (s : ResolveSetup) :
    ∀ i, i < s.tSteps → ∀ b k, k < s.beamOut →
      searchResolve s i (b * s.beamOut + k)
        = s.accOutput i (b * s.beamOut + hypSlot s (s.tSteps - 1 - i) b k) := by
  intro i hi b k hk
  unfold searchResolve
  rw [resolveLoop_spec s s.tSteps _ _ i hi b k hk, hypSlot_eq_lineageFrom]

def c2s : ResolveSetup :=
  { batch := 1, beamOut := 2, tSteps := 3,
    accChoice := fun i _ kslot => if i = 2 then (if kslot = 0 then 1 else 0) else kslot,
    accOutput := fun i n =>
      if i = 0 then (if n = 0 then 1 else 2)
      else if i = 1 then (if n = 0 then 3 else 4)
      else (if n = 0 then 5 else 6) }

theorem searchResolve_lineage_witness :
    searchResolve c2s 0 (0 * c2s.beamOut + 0) = 2 ∧
    searchResolve c2s 0 (0 * c2s.beamOut + 1) = 1 ∧
    searchResolve c2s 1 (0 * c2s.beamOut + 0) = 4 ∧
    searchResolve c2s 2 (0 * c2s.beamOut + 1) = 6 := by
  refine ⟨?_, ?_, ?_, ?_⟩
  · rw [searchResolve_lineage c2s 0 (by decide) 0 0 (by decide)]; decide
  · rw [searchResolve_lineage c2s 0 (by decide) 0 1 (by decide)]; decide
  · rw [searchResolve_lineage c2s 1 (by decide) 0 0 (by decide)]; decide
  · rw [searchResolve_lineage c2s 2 (by decide) 0 1 (by decide)]; decide

/-! ## Template graph construction and same-step cycles (C8)

Embedding of `_SubnetworkRecCell._construct_template` and its
`get_templated_layer` resolver (source lines 982-1045).  Textual dependency
references are pre-parsed into plain / `prev:` / `base:` forms; the state
carries `layer_data_templates` keys (`templateNames`, in creation order), the
names whose `add_templated_layer` initialization ran (`templateDone`),
`prev_layers_needed`, the `construct_ctx.layers` stack, and the collected
`dependencies.add` edges.  The recursion is driven by a fuel-indexed task
interpreter so that concrete runs evaluate. -/

inductive DepRef
  | same (name : String)
  | prevStep (name : String)
  | baseRef (name : String)
deriving DecidableEq

structure LayerDecl where
  depRefs : List DepRef
deriving DecidableEq

structure TemplState where
  templateNames : List String
  templateDone : List String
  prevNeeded : List String
  stack : List String
  depEdges : List (String × String)
deriving DecidableEq

inductive TemplTask
  | ref (r : DepRef)
  | deps (l : List DepRef)
  | build (name : String)

def addNameOnce (l : List String) (n : String) : List String :=
  if l.contains n then l else l ++ [n]

/-- Modelled from the spec: `TFNetwork._construct_layer` (file `TFNetwork.py`,
which is not under src/) is the collaborator that `get_templated_layer` calls
(source line 1033).  Per spec section 4.1 it "recursively resolve[s] every
textual dependency ... into a LayerTemplate, without performing any numeric
computation" and "fails with a configuration error if "output" is absent, or
... if a referenced name does not exist in any scope": it looks the name up in
the net dict (configuration error when absent) and yields the declaration's
textual dependency references, which the caller resolves through the supplied
`get_layer` before `add_layer` initializes the template (the `.build` arm of
`templRun` performs exactly that sequencing). -/
def constructLayerSpec (netDict : List (String × LayerDecl)) (n : String) :
    Except String (List DepRef) :=
  match netDict.lookup n with
  | none => .error ("layer " ++ n ++ " not found in net dict")
  | some decl => .ok decl.depRefs

/-- Embedding of `get_templated_layer` (source lines 1010-1037) and the
`_construct_layer` sequencing it delegates to (see `constructLayerSpec`),
fuel-indexed to stay structural.  `.ref (.prevStep n)` strips the `prev:`
prefix, records the name in `prev_layers_needed`, and continues with the
plain-name logic; `.ref (.baseRef n)` resolves in the parent net and records a
dependency edge; `.ref (.same n)` returns an already-created template
immediately — also when that template is still under construction, which is
how both `prev:` self-references and same-step cycles are treated — or
creates the template, pushes it on `construct_ctx.layers`, builds it, checks
the `construct_ctx.layers[-1] is layer` assertion and pops. -/
def templRun (pNames : List String) (netDict : List (String × LayerDecl)) :
    Nat → TemplState → TemplTask → Except String TemplState
  | 0, _, _ => .error "template recursion limit"
  | fuel + 1, st, task =>
    match task with
    | .ref (.prevStep n) =>
      templRun pNames netDict fuel
        { st with prevNeeded := addNameOnce st.prevNeeded n } (.ref (.same n))
    | .ref (.baseRef n) =>
      if pNames.contains n then
        match st.stack with
        | [] => .error "IndexError: construct_ctx.layers[-1] on empty stack"
        | top :: _ => .ok { st with depEdges := st.depEdges ++ [(top, n)] }
      else .error ("parent net layer " ++ n ++ " not found")
    | .ref (.same n) =>
      if st.templateNames.contains n then
        match st.stack with
        | [] => .error "IndexError: construct_ctx.layers[-1] on empty stack"
        | top :: _ => .ok { st with depEdges := st.depEdges ++ [(top, n)] }
      else
        let st1 : TemplState :=
          { st with
            templateNames := st.templateNames ++ [n]
            depEdges := match st.stack with
              | [] => st.depEdges
              | top :: _ => st.depEdges ++ [(top, n)]
            stack := n :: st.stack }
        match templRun pNames netDict fuel st1 (.build n) with
        | .error e => .error e
        | .ok st2 =>
          match st2.stack with
          | top :: rest =>
            if top = n then .ok { st2 with stack := rest }
            else .error "assert failed: construct stack corrupted"
          | [] => .error "assert failed: construct stack corrupted"
    | .deps [] => .ok st
    | .deps (d :: rest) =>
      match templRun pNames netDict fuel st (.ref d) with
      | .error e => .error e
      | .ok st2 => templRun pNames netDict fuel st2 (.deps rest)
    | .build n =>
      match constructLayerSpec netDict n with
      | .error e => .error e
      | .ok refs =>
        match templRun pNames netDict fuel st (.deps refs) with
        | .error e => .error e
        | .ok st2 => .ok { st2 with templateDone := st2.templateDone ++ [n] }

def initTemplState : TemplState :=
  { templateNames := [], templateDone := [], prevNeeded := [], stack := [], depEdges := [] }

/-- Embedding of `_SubnetworkRecCell._construct_template` (source lines
1039-1045): construct the template for `"output"`, then for `"end"` when the
net dict declares one. -/
def constructTemplate (pNames : List String) (netDict : List (String × LayerDecl))
    (fuel : Nat) : Except String TemplState :=
  match templRun pNames netDict fuel initTemplState (.ref (.same "output")) with
  | .error e => .error e
  | .ok st =>
    if (netDict.lookup "end").isSome then
      templRun pNames netDict fuel st (.ref (.same "end"))
    else .ok st

def c8cyc : List (String × LayerDecl) :=
  [("output", { depRefs := [.same "a"] }), ("a", { depRefs := [.same "output"] })]

/-- C8 counterexample: on the two-layer declaration whose `"output"` and
`"a"` layers reference each other in the same step, template construction
completes successfully — both templates are created and initialized and no
configuration error is raised — contradicting the claim that construction
never completes on a cyclic same-step declaration. -/
theorem constructTemplate_cycle_completes :
    constructTemplate [] c8cyc 10
      = .ok { templateNames := ["output", "a"], templateDone := ["a", "output"],
              prevNeeded := [], stack := [],
              depEdges := [("output", "a"), ("a", "output")] } := by rfl

theorem missingOutput_errors (pN : List String) (nd : List (String × LayerDecl))
    (fuel : Nat) (hf : 2 ≤ fuel) (hmiss : nd.lookup "output" = none) :
    ∃ msg, constructTemplate pN nd fuel = .error msg := by
  obtain ⟨f, rfl⟩ : ∃ f, fuel = f + 2 := ⟨fuel - 2, by omega⟩
  refine ⟨"layer output not found in net dict", ?_⟩
  simp [constructTemplate, templRun, initTemplState, constructLayerSpec, hmiss]

theorem memoRef_returns (pN : List String) (nd : List (String × LayerDecl))
    (fuel : Nat) (st : TemplState) (n top : String) (rest : List String)
    (hmem : st.templateNames.contains n = true) (hstack : st.stack = top :: rest) :
    templRun pN nd (fuel + 1) st (.ref (.same n))
      = .ok { st with depEdges := st.depEdges ++ [(top, n)] } := by
  simp only [templRun]
  rw [hmem, if_pos rfl, hstack]

def c8cyc3 : List (String × LayerDecl) :=
  [("output", { depRefs := [.same "a"] }),
   ("a", { depRefs := [.same "b"] }),
   ("b", { depRefs := [.same "a"] })]

theorem cycle3_completes : (constructTemplate [] c8cyc3 10).isOk = true := by rfl

/-- C8 (amended): template-graph construction fails with a configuration
error when the `"output"` layer is absent (and, per `constructLayerSpec`,
whenever a referenced name exists in no scope), but it does not detect
same-step dependency cycles: a same-step reference to a layer whose template
already exists — including one still under construction — returns that
template immediately exactly like a `prev:` self-reference does, so
construction completes successfully on a cyclic same-step declaration. -/
theorem templateConstruction_cycle_behavior :
    (∀ (pN : List String) (nd : List (String × LayerDecl)) (fuel : Nat),
      2 ≤ fuel → nd.lookup "output" = none →
        ∃ msg, constructTemplate pN nd fuel = .error msg) ∧
    (∀ (pN : List String) (nd : List (String × LayerDecl)) (fuel : Nat)
        (st : TemplState) (n top : String) (rest : List String),
      st.templateNames.contains n = true → st.stack = top :: rest →
        templRun pN nd (fuel + 1) st (.ref (.same n))
          = .ok { st with depEdges := st.depEdges ++ [(top, n)] }) ∧
    (constructTemplate [] c8cyc3 10).isOk = true :=
  ⟨missingOutput_errors, memoRef_returns, cycle3_completes⟩

theorem templateConstruction_cycle_behavior_witness :
    (∃ msg, constructTemplate [] ([] : List (String × LayerDecl)) 5 = .error msg) ∧
    (constructTemplate [] c8cyc3 10).isOk = true :=
  ⟨templateConstruction_cycle_behavior.1 [] [] 5 (by decide) rfl,
   templateConstruction_cycle_behavior.2.2⟩


end RecLayerModel
